import Mathlib

/-!
Verification of the organ-pertinence text classifier.

The repository consists of three Python modules sharing one matching core:
`text_classifier.py` (reference module), `app.py` (Streamlit app) and
`text_classifier_tkinter.py` (tkinter app).  Each module compiles a fixed
list of case-insensitive, word-boundary anchored regular expressions,
collects all matches of each pattern over the input (`re.finditer`), and
derives a label from emptiness of the lung / kidney evidence.

We embed the regular-expression dialect actually used by the sources
(literal characters, `(...)?,` `(?:a|b)` alternation, `\w*`, `\b`) as a
small AST `Re`, give it Python-compatible backtracking semantics (greedy
quantifiers, left-priority alternation, leftmost non-overlapping
`finditer`), and translate every pattern list and classifier function
from the sources.  Texts are `List Char`; `\w` is modelled over the ASCII
range (letters, digits, underscore), matching the inputs exercised here.
-/

/-- ASCII model of Python's `\w` character class: letters, digits, underscore. -/
def isWordChar (c : Char) : Bool :=
  decide (65 ≤ c.toNat ∧ c.toNat ≤ 90) || decide (97 ≤ c.toNat ∧ c.toNat ≤ 122) ||
  decide (48 ≤ c.toNat ∧ c.toNat ≤ 57) || decide (c.toNat = 95)

/-- The regular-expression constructs used by the source patterns. -/
inductive Re where
  | eps : Re
  | chr : Char → Re
  | seq : Re → Re → Re
  | alt : Re → Re → Re
  | opt : Re → Re
  | starW : Re
  | wordB : Re
deriving DecidableEq, Repr

/-- Character (if any) at position `i`, viewed through `isWordChar`. -/
def wordCharAt (t : List Char) (i : Nat) : Bool :=
  match t[i]? with
  | some c => isWordChar c
  | none => false

/-- Is the character just before position `i` a word character? -/
def prevIsWord (t : List Char) (i : Nat) : Bool :=
  match i with
  | 0 => false
  | j + 1 => wordCharAt t j

/-- Python's `\b`: a word boundary separates a word char from a non-word char. -/
def atBoundary (t : List Char) (i : Nat) : Bool :=
  prevIsWord t i != wordCharAt t i

/-- Length of the maximal run of word characters at the head of a list. -/
def wordRunL : List Char → Nat
  | [] => 0
  | c :: cs => if isWordChar c then wordRunL cs + 1 else 0

/-- Length of the maximal run of word characters starting at position `i`. -/
def wordRun (t : List Char) (i : Nat) : Nat :=
  wordRunL (t.drop i)

/-- Greedy backtracking for `\w*`: try consuming `n` characters first,
then fewer, handing the end position to the continuation `k`. -/
def tryStar (k : Nat → Option Nat) (i : Nat) : Nat → Option Nat
  | 0 => k i
  | n + 1 =>
    match k (i + (n + 1)) with
    | some e => some e
    | none => tryStar k i n

/-- Backtracking matcher in continuation-passing style, mirroring Python's
`re` semantics for the constructs involved: a literal character compares
case-insensitively (`re.IGNORECASE`), alternation prefers its left branch,
`(...)?` and `\w*` are greedy, `\b` consumes nothing. -/
def mtch (t : List Char) : Re → Nat → (Nat → Option Nat) → Option Nat
  | .eps, i, k => k i
  | .chr c, i, k =>
    match t[i]? with
    | some d => if d.toLower == c.toLower then k (i + 1) else none
    | none => none
  | .seq r1 r2, i, k => mtch t r1 i (fun j => mtch t r2 j k)
  | .alt r1 r2, i, k =>
    match mtch t r1 i k with
    | some e => some e
    | none => mtch t r2 i k
  | .opt r, i, k =>
    match mtch t r i k with
    | some e => some e
    | none => k i
  | .starW, i, k => tryStar k i (wordRun t i)
  | .wordB, i, k => if atBoundary t i then k i else none

/-- End position of the match of `re` anchored at position `i`, if any. -/
def matchAt (t : List Char) (re : Re) (i : Nat) : Option Nat :=
  mtch t re i (fun j => some j)

/-- Scanning loop of `re.finditer`: try each start position left to right,
resume after the end of each (non-empty) match.  `fuel` bounds the number
of steps; `t.length + 2` suffices since every step advances the position. -/
def scanAux (t : List Char) (re : Re) : Nat → Nat → List (Nat × Nat)
  | 0, _ => []
  | fuel + 1, i =>
    match matchAt t re i with
    | some e => (i, e) :: scanAux t re fuel (if i < e then e else i + 1)
    | none => if i < t.length then scanAux t re fuel (i + 1) else []

/-- All `(start, end)` spans produced by `pattern.finditer(text)`. -/
def findIter (t : List Char) (re : Re) : List (Nat × Nat) :=
  scanAux t re (t.length + 2) 0

/-- `text[i:e]` — the matched substring `m.group(0)` for a span `(i, e)`. -/
def sliceStr (t : List Char) (i e : Nat) : List Char :=
  (t.drop i).take (e - i)

/-- An element of the list built by `_find_hits`: `(m.group(0), m.span())`. -/
abbrev Hit := List Char × Nat × Nat

/-- `_find_hits(text, patterns)` (identical in all three source modules):
for each pattern in order, append `(m.group(0), m.span())` for each match. -/
def find_hits (t : List Char) : List Re → List Hit
  | [] => []
  | p :: ps =>
    (findIter t p).map (fun pr => (sliceStr t pr.1 pr.2, pr)) ++ find_hits t ps

/-- Chain a list of literal characters in front of a trailing regex. -/
def lits : List Char → Re → Re
  | [], r => r
  | c :: cs, r => .seq (.chr c) (lits cs r)

/-- A word-boundary anchored pattern `\b<root>...`: every source pattern
has this shape. -/
def bPat (root : List Char) (rest : Re) : Re :=
  .seq .wordB (lits root rest)

/-- Coerce a string literal to the character-list texts we work over. -/
def s2l (s : String) : List Char :=
  s.data

namespace textclassifier

/-! Patterns of `src/text_classifier.py` (also those of `src/app.py`). -/

/-- `_LUNG_PATTERNS` from `text_classifier.py`, as regex ASTs. -/
def LUNG_PATTERNS : List Re := [
  bPat (s2l "lung") (.seq (.opt (.chr 's')) .wordB),
  bPat (s2l "pulmonar") (.seq (.alt (lits (s2l "y") .eps) (lits (s2l "ies") .eps)) .wordB),
  bPat (s2l "respiratory tract") .wordB,
  bPat (s2l "bronch") (.seq .starW .wordB),
  bPat (s2l "alveol") (.seq .starW .wordB),
  bPat (s2l "pleur") (.seq .starW .wordB),
  bPat (s2l "pneumon") (.seq .starW .wordB),
  bPat (s2l "COPD") .wordB,
  bPat (s2l "ARDS") .wordB,
  bPat (s2l "interstitial lung disease") .wordB]

/-- `_KIDNEY_PATTERNS` from `text_classifier.py`. -/
def KIDNEY_PATTERNS : List Re := [
  bPat (s2l "kidney") (.seq (.opt (.chr 's')) .wordB),
  bPat (s2l "renal") .wordB,
  bPat (s2l "nephr") (.seq .starW .wordB),
  bPat (s2l "glomerul") (.seq .starW .wordB),
  bPat (s2l "creatinin") (.seq .starW .wordB),
  bPat (s2l "GFR") .wordB,
  bPat (s2l "dialysis") .wordB,
  bPat (s2l "proteinuria") .wordB,
  bPat (s2l "albuminuria") .wordB]

/-- `_IGNORE_PATTERNS` from `text_classifier.py`. -/
def IGNORE_PATTERNS : List Re := [
  bPat (s2l "dyspno") (.seq (.opt (.chr 'e')) (.seq (.opt (.chr 'a')) .wordB)),
  bPat (s2l "short") (.seq (.opt (lits (s2l "ness") .eps)) (lits (s2l " of breath") .wordB)),
  bPat (s2l "renin-angiotensin-aldosterone")
    (.seq (.alt (.chr '-') (.chr ' ')) (lits (s2l "system") .wordB)),
  bPat (s2l "RAAS") .wordB,
  bPat (s2l "tachycardia") .wordB,
  bPat (s2l "hypertension") .wordB]

end textclassifier

/-- The three per-category evidence lists returned when evidence is requested. -/
structure Evidence where
  lungs : List (List Char)
  kidneys : List (List Char)
  ignored : List (List Char)
deriving DecidableEq, Repr

/-- Return value of `classify_medical_abstract`: either the bare label or
the `(label, evidence)` pair (`Union[str, Tuple[str, Dict[str, List[str]]]]`). -/
inductive CResult where
  | lbl (label : String)
  | lblEv (label : String) (ev : Evidence)
deriving DecidableEq, Repr

/-- The label component of a classification result. -/
def labelOf : CResult → String
  | .lbl l => l
  | .lblEv l _ => l

/-- The evidence component of a classification result, when present. -/
def evidenceOf : CResult → Option Evidence
  | .lbl _ => none
  | .lblEv _ ev => some ev

/-- Dynamically-typed Python values a caller could pass as `text`:
`None`, a string, or (representing any other object) an integer. -/
inductive PyVal where
  | pynone
  | pystr (s : List Char)
  | pyint (n : Int)
deriving DecidableEq, Repr

/-- Python truthiness for the values above (`None` and `0` and `""` are falsy). -/
def truthy : PyVal → Bool
  | .pynone => false
  | .pystr s => !s.isEmpty
  | .pyint n => n != 0

namespace textclassifier

/-- `classify_medical_abstract(text, return_evidence)` from
`text_classifier.py`, on string inputs (for which `text = text or ""` is
the identity).  The module also scans the ignore patterns into a discarded
variable before the decision; being pure, that line is dropped here. -/
def classify_medical_abstract (text : List Char) (return_evidence : Bool) : CResult :=
  let lung_hits := find_hits text LUNG_PATTERNS
  let kidney_hits := find_hits text KIDNEY_PATTERNS
  let label : String :=
    if 0 < lung_hits.length ∧ 0 < kidney_hits.length then "both"
    else if 0 < lung_hits.length then "lungs"
    else if 0 < kidney_hits.length then "kidneys"
    else "neither"
  if return_evidence then
    .lblEv label
      ⟨lung_hits.map (fun h => h.1), kidney_hits.map (fun h => h.1),
       (find_hits text IGNORE_PATTERNS).map (fun h => h.1)⟩
  else .lbl label

/-- `classify_medical_abstract` on a dynamically-typed argument.
`text = text or ""` replaces a falsy argument by the empty string; a
truthy non-string argument reaches `p.finditer(text)`, which raises
`TypeError` (modelled as `.error ()`). -/
def classify_medical_abstract_dyn (v : PyVal) (return_evidence : Bool) :
    Except Unit CResult :=
  match (if truthy v then v else .pystr []) with
  | .pystr s => .ok (classify_medical_abstract s return_evidence)
  | _ => .error ()

end textclassifier

namespace streamlitapp

/-! `src/app.py` (Streamlit): same pattern lists as `text_classifier.py`. -/

/-- `LUNG_PATTERNS` from `app.py`. -/
def LUNG_PATTERNS : List Re := [
  bPat (s2l "lung") (.seq (.opt (.chr 's')) .wordB),
  bPat (s2l "pulmonar") (.seq (.alt (lits (s2l "y") .eps) (lits (s2l "ies") .eps)) .wordB),
  bPat (s2l "respiratory tract") .wordB,
  bPat (s2l "bronch") (.seq .starW .wordB),
  bPat (s2l "alveol") (.seq .starW .wordB),
  bPat (s2l "pleur") (.seq .starW .wordB),
  bPat (s2l "pneumon") (.seq .starW .wordB),
  bPat (s2l "COPD") .wordB,
  bPat (s2l "ARDS") .wordB,
  bPat (s2l "interstitial lung disease") .wordB]

/-- `KIDNEY_PATTERNS` from `app.py`. -/
def KIDNEY_PATTERNS : List Re := [
  bPat (s2l "kidney") (.seq (.opt (.chr 's')) .wordB),
  bPat (s2l "renal") .wordB,
  bPat (s2l "nephr") (.seq .starW .wordB),
  bPat (s2l "glomerul") (.seq .starW .wordB),
  bPat (s2l "creatinin") (.seq .starW .wordB),
  bPat (s2l "GFR") .wordB,
  bPat (s2l "dialysis") .wordB,
  bPat (s2l "proteinuria") .wordB,
  bPat (s2l "albuminuria") .wordB]

/-- `IGNORE_PATTERNS` from `app.py`. -/
def IGNORE_PATTERNS : List Re := [
  bPat (s2l "dyspno") (.seq (.opt (.chr 'e')) (.seq (.opt (.chr 'a')) .wordB)),
  bPat (s2l "short") (.seq (.opt (lits (s2l "ness") .eps)) (lits (s2l " of breath") .wordB)),
  bPat (s2l "renin-angiotensin-aldosterone")
    (.seq (.alt (.chr '-') (.chr ' ')) (lits (s2l "system") .wordB)),
  bPat (s2l "RAAS") .wordB,
  bPat (s2l "tachycardia") .wordB,
  bPat (s2l "hypertension") .wordB]

/-- `classify_medical_abstract(text, return_evidence)` from `app.py`, on
string inputs.  Unlike the reference module it binds `ignored_hits`
up front and reuses it in the evidence branch. -/
def classify_medical_abstract (text : List Char) (return_evidence : Bool) : CResult :=
  let lung_hits := find_hits text LUNG_PATTERNS
  let kidney_hits := find_hits text KIDNEY_PATTERNS
  let ignored_hits := find_hits text IGNORE_PATTERNS
  let label : String :=
    if 0 < lung_hits.length ∧ 0 < kidney_hits.length then "both"
    else if 0 < lung_hits.length then "lungs"
    else if 0 < kidney_hits.length then "kidneys"
    else "neither"
  if return_evidence then
    .lblEv label
      ⟨lung_hits.map (fun h => h.1), kidney_hits.map (fun h => h.1),
       ignored_hits.map (fun h => h.1)⟩
  else .lbl label

end streamlitapp

namespace tkapp

/-! `src/text_classifier_tkinter.py`: a divergent vocabulary — it adds
`\bspirometr\w*\b` and replaces `\brespiratory tract\b` by
`\brespirator(?:y|ies)\b`, and its kidney list drops `\bproteinuria\b`. -/

/-- `CP_LUNG = _compile(LUNG_PATTERNS)` from `text_classifier_tkinter.py`. -/
def CP_LUNG : List Re := [
  bPat (s2l "lung") (.seq (.opt (.chr 's')) .wordB),
  bPat (s2l "pulmonar") (.seq (.alt (lits (s2l "y") .eps) (lits (s2l "ies") .eps)) .wordB),
  bPat (s2l "respirator") (.seq (.alt (lits (s2l "y") .eps) (lits (s2l "ies") .eps)) .wordB),
  bPat (s2l "bronch") (.seq .starW .wordB),
  bPat (s2l "alveol") (.seq .starW .wordB),
  bPat (s2l "spirometr") (.seq .starW .wordB),
  bPat (s2l "pleur") (.seq .starW .wordB),
  bPat (s2l "interstitial lung disease") .wordB,
  bPat (s2l "ARDS") .wordB,
  bPat (s2l "COPD") .wordB,
  bPat (s2l "pneumon") (.seq .starW .wordB)]

/-- `CP_KIDNEY = _compile(KIDNEY_PATTERNS)` from `text_classifier_tkinter.py`. -/
def CP_KIDNEY : List Re := [
  bPat (s2l "kidney") (.seq (.opt (.chr 's')) .wordB),
  bPat (s2l "renal") .wordB,
  bPat (s2l "nephr") (.seq .starW .wordB),
  bPat (s2l "glomerul") (.seq .starW .wordB),
  bPat (s2l "creatinin") (.seq .starW .wordB),
  bPat (s2l "GFR") .wordB,
  bPat (s2l "dialysis") .wordB,
  bPat (s2l "albuminuria") .wordB]

/-- `classify(text)` from `text_classifier_tkinter.py`:
`t = text if isinstance(text, str) else ""`, then the same decision chain. -/
def classify (text : PyVal) : String :=
  let t : List Char := match text with | .pystr s => s | _ => []
  let lung_hits := find_hits t CP_LUNG
  let kidney_hits := find_hits t CP_KIDNEY
  if 0 < lung_hits.length ∧ 0 < kidney_hits.length then "both"
  else if 0 < lung_hits.length then "lungs"
  else if 0 < kidney_hits.length then "kidneys"
  else "neither"

end tkapp

/-! ### Character-level lemmas -/

/-- Split a goal about an arbitrary character into the ASCII range
(decidable by enumeration) and the high range. -/
theorem char_cases (P : Char → Prop) (hsmall : ∀ n, n < 128 → P (Char.ofNat n))
    (hbig : ∀ c : Char, 128 ≤ c.toNat → P c) (c : Char) : P c := by
  rcases Nat.lt_or_ge c.toNat 128 with h | h
  · have := hsmall c.toNat h
    rwa [Char.ofNat_toNat] at this
  · exact hbig c h

theorem toLower_eq_self_of_big {c : Char} (h : 128 ≤ c.toNat) : c.toLower = c := by
  have hc : ¬(c.toNat ≥ 65 ∧ c.toNat ≤ 90) := by omega
  simp [Char.toLower, hc]

theorem toUpper_eq_self_of_big {c : Char} (h : 128 ≤ c.toNat) : c.toUpper = c := by
  have hc : ¬(c.toNat ≥ 97 ∧ c.toNat ≤ 122) := by omega
  simp [Char.toUpper, hc]

theorem toLower_toLower (c : Char) : c.toLower.toLower = c.toLower := by
  refine char_cases (fun c => c.toLower.toLower = c.toLower) (by decide) ?_ c
  intro c h
  simp [toLower_eq_self_of_big h]

theorem toUpper_toLower (c : Char) : c.toUpper.toLower = c.toLower := by
  refine char_cases (fun c => c.toUpper.toLower = c.toLower) (by decide) ?_ c
  intro c h
  simp [toUpper_eq_self_of_big h]

theorem isWordChar_toLower (c : Char) : isWordChar c.toLower = isWordChar c := by
  refine char_cases (fun c => isWordChar c.toLower = isWordChar c) (by decide) ?_ c
  intro c h
  rw [toLower_eq_self_of_big h]

theorem isWordChar_toUpper (c : Char) : isWordChar c.toUpper = isWordChar c := by
  refine char_cases (fun c => isWordChar c.toUpper = isWordChar c) (by decide) ?_ c
  intro c h
  rw [toUpper_eq_self_of_big h]

theorem isWordChar_of_whitespace {c : Char} (h : c.isWhitespace = true) :
    isWordChar c = false := by
  simp only [Char.isWhitespace, Bool.or_eq_true, decide_eq_true_eq] at h
  rcases h with ((h | h) | h) | h <;> subst h <;> decide

/-! ### Texts without word characters produce no matches -/

theorem wordCharAt_eq_false {t : List Char} (h : ∀ c ∈ t, isWordChar c = false)
    (i : Nat) : wordCharAt t i = false := by
  unfold wordCharAt
  cases hg : t[i]? with
  | none => rfl
  | some c => exact h c (List.getElem?_mem hg)

theorem atBoundary_eq_false {t : List Char} (h : ∀ c ∈ t, isWordChar c = false)
    (i : Nat) : atBoundary t i = false := by
  unfold atBoundary prevIsWord
  cases i <;> simp [wordCharAt_eq_false h]

theorem mtch_wordB_seq (t : List Char) (r : Re) (i : Nat) (k : Nat → Option Nat) :
    mtch t (.seq .wordB r) i k = if atBoundary t i then mtch t r i k else none := by
  simp [mtch]

theorem matchAt_bPat_of_noWord {t : List Char} (h : ∀ c ∈ t, isWordChar c = false)
    (root : List Char) (rest : Re) (i : Nat) :
    matchAt t (bPat root rest) i = none := by
  unfold matchAt bPat
  rw [mtch_wordB_seq, atBoundary_eq_false h]
  simp

theorem scanAux_eq_nil {t : List Char} {re : Re} (h : ∀ i, matchAt t re i = none) :
    ∀ fuel i, scanAux t re fuel i = [] := by
  intro fuel
  induction fuel with
  | zero => intro i; rfl
  | succ n ih =>
    intro i
    simp only [scanAux, h i]
    split
    · exact ih _
    · rfl

theorem findIter_eq_nil {t : List Char} {re : Re} (h : ∀ i, matchAt t re i = none) :
    findIter t re = [] :=
  scanAux_eq_nil h _ _

theorem find_hits_eq_nil_of_noWord {t : List Char} (h : ∀ c ∈ t, isWordChar c = false)
    {ps : List Re} (hps : ∀ p ∈ ps, ∃ root rest, p = bPat root rest) :
    find_hits t ps = [] := by
  induction ps with
  | nil => rfl
  | cons p ps ih =>
    obtain ⟨root, rest, hshape⟩ := hps p (List.mem_cons_self p ps)
    have hnil : findIter t p = [] := by
      subst hshape
      exact findIter_eq_nil (matchAt_bPat_of_noWord h root rest)
    simp only [find_hits, hnil, List.map_nil, List.nil_append]
    exact ih fun q hq => hps q (List.mem_cons_of_mem _ hq)

/-! ### Every source pattern is `\b` followed by a non-empty literal root -/

theorem shape_ref_lung : ∀ p ∈ textclassifier.LUNG_PATTERNS,
    ∃ root rest, p = bPat root rest ∧ root ≠ [] := by
  intro p hp
  simp only [textclassifier.LUNG_PATTERNS, List.mem_cons, List.not_mem_nil, or_false] at hp
  rcases hp with rfl | rfl | rfl | rfl | rfl | rfl | rfl | rfl | rfl | rfl <;>
    exact ⟨_, _, rfl, by decide⟩

theorem shape_ref_kidney : ∀ p ∈ textclassifier.KIDNEY_PATTERNS,
    ∃ root rest, p = bPat root rest ∧ root ≠ [] := by
  intro p hp
  simp only [textclassifier.KIDNEY_PATTERNS, List.mem_cons, List.not_mem_nil, or_false] at hp
  rcases hp with rfl | rfl | rfl | rfl | rfl | rfl | rfl | rfl | rfl <;>
    exact ⟨_, _, rfl, by decide⟩

theorem shape_ref_ignore : ∀ p ∈ textclassifier.IGNORE_PATTERNS,
    ∃ root rest, p = bPat root rest ∧ root ≠ [] := by
  intro p hp
  simp only [textclassifier.IGNORE_PATTERNS, List.mem_cons, List.not_mem_nil, or_false] at hp
  rcases hp with rfl | rfl | rfl | rfl | rfl | rfl <;>
    exact ⟨_, _, rfl, by decide⟩

theorem shape_tk_lung : ∀ p ∈ tkapp.CP_LUNG,
    ∃ root rest, p = bPat root rest ∧ root ≠ [] := by
  intro p hp
  simp only [tkapp.CP_LUNG, List.mem_cons, List.not_mem_nil, or_false] at hp
  rcases hp with rfl | rfl | rfl | rfl | rfl | rfl | rfl | rfl | rfl | rfl | rfl <;>
    exact ⟨_, _, rfl, by decide⟩

theorem shape_tk_kidney : ∀ p ∈ tkapp.CP_KIDNEY,
    ∃ root rest, p = bPat root rest ∧ root ≠ [] := by
  intro p hp
  simp only [tkapp.CP_KIDNEY, List.mem_cons, List.not_mem_nil, or_false] at hp
  rcases hp with rfl | rfl | rfl | rfl | rfl | rfl | rfl | rfl <;>
    exact ⟨_, _, rfl, by decide⟩

/-! ### Label characterizations -/

theorem labelOf_classify_ref (t : List Char) (b : Bool) :
    labelOf (textclassifier.classify_medical_abstract t b) =
      if 0 < (find_hits t textclassifier.LUNG_PATTERNS).length ∧
          0 < (find_hits t textclassifier.KIDNEY_PATTERNS).length then "both"
      else if 0 < (find_hits t textclassifier.LUNG_PATTERNS).length then "lungs"
      else if 0 < (find_hits t textclassifier.KIDNEY_PATTERNS).length then "kidneys"
      else "neither" := by
  cases b <;> rfl

theorem tk_classify_eq (t : List Char) :
    tkapp.classify (.pystr t) =
      if 0 < (find_hits t tkapp.CP_LUNG).length ∧
          0 < (find_hits t tkapp.CP_KIDNEY).length then "both"
      else if 0 < (find_hits t tkapp.CP_LUNG).length then "lungs"
      else if 0 < (find_hits t tkapp.CP_KIDNEY).length then "kidneys"
      else "neither" := rfl

/-! ### A `\b<root>...` match needs the root at a word boundary -/

/-- `occursCI cs t i`: the letters `cs` occur (case-insensitively) in `t`
starting at position `i`. -/
def occursCI : List Char → List Char → Nat → Bool
  | [], _, _ => true
  | c :: cs, t, i =>
    (match t[i]? with
     | some d => d.toLower == c.toLower
     | none => false) && occursCI cs t (i + 1)

theorem mtch_lits_some {t : List Char} {r : Re} {k : Nat → Option Nat} {e : Nat} :
    ∀ cs i, mtch t (lits cs r) i k = some e → occursCI cs t i = true := by
  intro cs
  induction cs with
  | nil => intro i _; rfl
  | cons c cs ih =>
    intro i hm
    simp only [lits, mtch] at hm
    cases hg : t[i]? with
    | none => rw [hg] at hm; exact absurd hm (by simp)
    | some d =>
      rw [hg] at hm
      simp only at hm
      by_cases hd : (d.toLower == c.toLower) = true
      · rw [if_pos hd] at hm
        simp only [occursCI, hg, hd, Bool.true_and]
        exact ih (i + 1) hm
      · rw [if_neg hd] at hm
        exact absurd hm (by simp)

theorem mtch_bPat_some {t root : List Char} {rest : Re} {k : Nat → Option Nat}
    {i e : Nat} (hm : mtch t (bPat root rest) i k = some e) :
    atBoundary t i = true ∧ occursCI root t i = true := by
  rw [bPat, mtch_wordB_seq] at hm
  by_cases hb : atBoundary t i = true
  · rw [if_pos hb] at hm
    exact ⟨hb, mtch_lits_some root i hm⟩
  · rw [if_neg hb] at hm
    exact absurd hm (by simp)

theorem occursCI_lt_length {t : List Char} {c : Char} {cs : List Char} {i : Nat}
    (h : occursCI (c :: cs) t i = true) : i < t.length := by
  simp only [occursCI, Bool.and_eq_true] at h
  rcases h with ⟨h, -⟩
  cases hg : t[i]? with
  | none =>
    rw [hg] at h
    exact absurd h (by simp)
  | some d =>
    exact (List.getElem?_eq_some_iff.mp hg).1

/-- If every case-insensitive occurrence of `root` in `t` sits at a position
with no word boundary, then `\b<root>...` never matches. -/
theorem matchAt_bPat_none_of_embedded {t root : List Char} {rest : Re}
    (hne : root ≠ [])
    (h : ∀ i, i < t.length → occursCI root t i = true → atBoundary t i = false)
    (i : Nat) : matchAt t (bPat root rest) i = none := by
  cases hm : matchAt t (bPat root rest) i with
  | none => rfl
  | some e =>
    obtain ⟨hb, hocc⟩ := mtch_bPat_some hm
    obtain ⟨c, cs, rfl⟩ := List.exists_cons_of_ne_nil hne
    have hlt : i < t.length := occursCI_lt_length hocc
    rw [h i hlt hocc] at hb
    exact absurd hb (by simp)

/-! ### Bounds on matches and spans -/

theorem tryStar_some {k : Nat → Option Nat} {i : Nat} :
    ∀ n e, tryStar k i n = some e → ∃ m, m ≤ n ∧ k (i + m) = some e := by
  intro n
  induction n with
  | zero =>
    intro e h
    exact ⟨0, le_rfl, by simpa using h⟩
  | succ n ih =>
    intro e h
    simp only [tryStar] at h
    cases hk : k (i + (n + 1)) with
    | some e2 =>
      rw [hk] at h
      simp only [Option.some.injEq] at h
      exact ⟨n + 1, le_rfl, by rw [hk, h]⟩
    | none =>
      rw [hk] at h
      simp only at h
      obtain ⟨m, hm, hke⟩ := ih e h
      exact ⟨m, by omega, hke⟩

theorem wordRunL_le_length : ∀ l : List Char, wordRunL l ≤ l.length := by
  intro l
  induction l with
  | nil => simp [wordRunL]
  | cons c cs ih =>
    simp only [wordRunL, List.length_cons]
    split
    · omega
    · omega

theorem wordRun_le {t : List Char} (i : Nat) : wordRun t i ≤ t.length - i := by
  unfold wordRun
  calc wordRunL (t.drop i) ≤ (t.drop i).length := wordRunL_le_length _
  _ = t.length - i := List.length_drop i t

/-- A successful match starting at `i` hands the continuation a position
`j ≥ i`; if any character was consumed (`i < j`), `j` lies inside the text. -/
theorem mtch_within {t : List Char} :
    ∀ (re : Re) (i : Nat) (k : Nat → Option Nat) (e : Nat),
      mtch t re i k = some e →
      ∃ j, i ≤ j ∧ (i < j → j ≤ t.length) ∧ k j = some e := by
  intro re
  induction re with
  | eps =>
    intro i k e hm
    exact ⟨i, le_rfl, fun h => absurd h (Nat.lt_irrefl i), hm⟩
  | chr c =>
    intro i k e hm
    simp only [mtch] at hm
    cases hg : t[i]? with
    | none => rw [hg] at hm; exact absurd hm (by simp)
    | some d =>
      rw [hg] at hm
      simp only at hm
      by_cases hd : (d.toLower == c.toLower) = true
      · rw [if_pos hd] at hm
        have hi : i < t.length := (List.getElem?_eq_some_iff.mp hg).1
        exact ⟨i + 1, by omega, fun _ => by omega, hm⟩
      · rw [if_neg hd] at hm
        exact absurd hm (by simp)
  | seq r1 r2 ih1 ih2 =>
    intro i k e hm
    simp only [mtch] at hm
    obtain ⟨j1, hij1, hc1, hk1⟩ := ih1 i _ e hm
    obtain ⟨j2, hij2, hc2, hk2⟩ := ih2 j1 k e hk1
    refine ⟨j2, by omega, ?_, hk2⟩
    intro hij
    rcases Nat.lt_or_ge j1 j2 with h | h
    · exact hc2 h
    · have : j2 = j1 := by omega
      subst this
      exact hc1 (by omega)
  | alt r1 r2 ih1 ih2 =>
    intro i k e hm
    simp only [mtch] at hm
    cases h1 : mtch t r1 i k with
    | some e2 =>
      rw [h1] at hm
      simp only [Option.some.injEq] at hm
      subst hm
      exact ih1 i k e2 h1
    | none =>
      rw [h1] at hm
      simp only at hm
      exact ih2 i k e hm
  | opt r ih =>
    intro i k e hm
    simp only [mtch] at hm
    cases h1 : mtch t r i k with
    | some e2 =>
      rw [h1] at hm
      simp only [Option.some.injEq] at hm
      subst hm
      exact ih i k e2 h1
    | none =>
      rw [h1] at hm
      simp only at hm
      exact ⟨i, le_rfl, fun h => absurd h (Nat.lt_irrefl i), hm⟩
  | starW =>
    intro i k e hm
    simp only [mtch] at hm
    obtain ⟨m, hmn, hke⟩ := tryStar_some _ e hm
    have hrun := wordRun_le (t := t) i
    refine ⟨i + m, by omega, fun h => by omega, hke⟩
  | wordB =>
    intro i k e hm
    simp only [mtch] at hm
    by_cases hb : atBoundary t i = true
    · rw [if_pos hb] at hm
      exact ⟨i, le_rfl, fun h => absurd h (Nat.lt_irrefl i), hm⟩
    · rw [if_neg hb] at hm
      exact absurd hm (by simp)

/-- A `\b<root>...` pattern with a non-empty root matches a non-empty span
that ends inside the text. -/
theorem matchAt_bPat_bounds {t root : List Char} {rest : Re} (hne : root ≠ [])
    {i e : Nat} (hm : matchAt t (bPat root rest) i = some e) :
    i < e ∧ e ≤ t.length := by
  obtain ⟨c, cs, rfl⟩ := List.exists_cons_of_ne_nil hne
  unfold matchAt at hm
  rw [bPat, mtch_wordB_seq] at hm
  by_cases hb : atBoundary t i = true
  · rw [if_pos hb] at hm
    simp only [lits, mtch] at hm
    cases hg : t[i]? with
    | none => rw [hg] at hm; exact absurd hm (by simp)
    | some d =>
      rw [hg] at hm
      simp only at hm
      by_cases hd : (d.toLower == c.toLower) = true
      · rw [if_pos hd] at hm
        have hi : i < t.length := (List.getElem?_eq_some_iff.mp hg).1
        obtain ⟨j, hij, hc, hkj⟩ := mtch_within _ _ _ _ hm
        simp only [Option.some.injEq] at hkj
        subst hkj
        rcases Nat.lt_or_ge (i + 1) j with h | h
        · exact ⟨by omega, hc h⟩
        · have : j = i + 1 := by omega
          omega
      · rw [if_neg hd] at hm
        exact absurd hm (by simp)
  · rw [if_neg hb] at hm
    exact absurd hm (by simp)

theorem matchAt_bounds_of_shape {t : List Char} {p : Re}
    (hp : ∃ root rest, p = bPat root rest ∧ root ≠ []) :
    ∀ i e, matchAt t p i = some e → i < e ∧ e ≤ t.length := by
  obtain ⟨root, rest, rfl, hne⟩ := hp
  exact fun _ _ hm => matchAt_bPat_bounds hne hm

/-! ### Structure of the `finditer` span list -/

theorem scanAux_mem {t : List Char} {re : Re}
    (hb : ∀ i e, matchAt t re i = some e → i < e ∧ e ≤ t.length) :
    ∀ fuel i0 pr, pr ∈ scanAux t re fuel i0 →
      i0 ≤ pr.1 ∧ pr.1 < pr.2 ∧ pr.2 ≤ t.length ∧ matchAt t re pr.1 = some pr.2 := by
  intro fuel
  induction fuel with
  | zero =>
    intro i0 pr h
    exact absurd h (List.not_mem_nil pr)
  | succ n ih =>
    intro i0 pr h
    rw [scanAux] at h
    cases hm : matchAt t re i0 with
    | some e =>
      rw [hm] at h
      simp only at h
      rcases List.mem_cons.mp h with rfl | htl
      · exact ⟨le_rfl, (hb _ _ hm).1, (hb _ _ hm).2, hm⟩
      · obtain ⟨h1, h2, h3, h4⟩ := ih _ pr htl
        refine ⟨?_, h2, h3, h4⟩
        have he := (hb _ _ hm).1
        rw [if_pos he] at h1
        omega
    | none =>
      rw [hm] at h
      simp only at h
      split at h
      · obtain ⟨h1, h2, h3, h4⟩ := ih _ pr h
        exact ⟨by omega, h2, h3, h4⟩
      · exact absurd h (List.not_mem_nil pr)

theorem findIter_mem {t : List Char} {re : Re}
    (hb : ∀ i e, matchAt t re i = some e → i < e ∧ e ≤ t.length)
    {pr : Nat × Nat} (h : pr ∈ findIter t re) :
    pr.1 < pr.2 ∧ pr.2 ≤ t.length ∧ matchAt t re pr.1 = some pr.2 :=
  ⟨(scanAux_mem hb _ _ pr h).2.1, (scanAux_mem hb _ _ pr h).2.2.1,
   (scanAux_mem hb _ _ pr h).2.2.2⟩

theorem scanAux_chain {t : List Char} {re : Re}
    (hb : ∀ i e, matchAt t re i = some e → i < e ∧ e ≤ t.length) :
    ∀ fuel i0, List.Chain' (fun a b : Nat × Nat => a.2 ≤ b.1 ∧ a.1 < b.1)
      (scanAux t re fuel i0) := by
  intro fuel
  induction fuel with
  | zero =>
    intro i0
    exact List.chain'_nil
  | succ n ih =>
    intro i0
    rw [scanAux]
    cases hm : matchAt t re i0 with
    | some e =>
      simp only
      refine List.chain'_cons'.mpr ⟨?_, ih _⟩
      intro b hbm
      have hmem : b ∈ scanAux t re n (if i0 < e then e else i0 + 1) :=
        List.mem_of_mem_head? hbm
      have h1 := (scanAux_mem hb n _ b hmem).1
      have he := (hb _ _ hm).1
      rw [if_pos he] at h1
      exact ⟨h1, by omega⟩
    | none =>
      simp only
      split
      · exact ih _
      · exact List.chain'_nil

theorem findIter_chain {t : List Char} {re : Re}
    (hb : ∀ i e, matchAt t re i = some e → i < e ∧ e ≤ t.length) :
    List.Chain' (fun a b : Nat × Nat => a.2 ≤ b.1 ∧ a.1 < b.1) (findIter t re) :=
  scanAux_chain hb _ _

theorem find_hits_mem {t : List Char} :
    ∀ {ps : List Re} {ht : Hit}, ht ∈ find_hits t ps →
      ∃ p ∈ ps, ht.2 ∈ findIter t p ∧ ht.1 = sliceStr t ht.2.1 ht.2.2 := by
  intro ps
  induction ps with
  | nil =>
    intro ht hm
    exact absurd hm (List.not_mem_nil ht)
  | cons p ps ih =>
    intro ht hm
    rcases List.mem_append.mp hm with hm | hm
    · obtain ⟨pr, hpr, rfl⟩ := List.mem_map.mp hm
      exact ⟨p, List.mem_cons_self p ps, hpr, rfl⟩
    · obtain ⟨q, hq, h2⟩ := ih hm
      exact ⟨q, List.mem_cons_of_mem p hq, h2⟩

/-! ### Matching is invariant under character maps that preserve
lowercase form and word-char status (uppercasing, lowercasing) -/

section CaseMap

variable {f : Char → Char}

theorem wordCharAt_map (hw : ∀ c, isWordChar (f c) = isWordChar c)
    (t : List Char) (i : Nat) : wordCharAt (t.map f) i = wordCharAt t i := by
  unfold wordCharAt
  rw [List.getElem?_map]
  cases t[i]? with
  | none => rfl
  | some c => exact hw c

theorem atBoundary_map (hw : ∀ c, isWordChar (f c) = isWordChar c)
    (t : List Char) (i : Nat) : atBoundary (t.map f) i = atBoundary t i := by
  unfold atBoundary prevIsWord
  cases i <;> simp [wordCharAt_map hw]

theorem wordRunL_map (hw : ∀ c, isWordChar (f c) = isWordChar c) :
    ∀ l : List Char, wordRunL (l.map f) = wordRunL l := by
  intro l
  induction l with
  | nil => rfl
  | cons c cs ih => simp only [List.map_cons, wordRunL, hw c, ih]

theorem wordRun_map (hw : ∀ c, isWordChar (f c) = isWordChar c)
    (t : List Char) (i : Nat) : wordRun (t.map f) i = wordRun t i := by
  unfold wordRun
  rw [← List.map_drop, wordRunL_map hw]

theorem mtch_map (hl : ∀ c, (f c).toLower = c.toLower)
    (hw : ∀ c, isWordChar (f c) = isWordChar c) (t : List Char) :
    ∀ (re : Re) (i : Nat) (k : Nat → Option Nat),
      mtch (t.map f) re i k = mtch t re i k := by
  intro re
  induction re with
  | eps => intro i k; rfl
  | chr c =>
    intro i k
    simp only [mtch, List.getElem?_map]
    cases t[i]? with
    | none => rfl
    | some d => simp [hl d]
  | seq r1 r2 ih1 ih2 =>
    intro i k
    simp only [mtch]
    have hk : (fun j => mtch (t.map f) r2 j k) = (fun j => mtch t r2 j k) :=
      funext fun j => ih2 j k
    rw [hk, ih1]
  | alt r1 r2 ih1 ih2 =>
    intro i k
    simp only [mtch, ih1, ih2]
  | opt r ih =>
    intro i k
    simp only [mtch, ih]
  | starW =>
    intro i k
    simp only [mtch, wordRun_map hw]
  | wordB =>
    intro i k
    simp only [mtch, atBoundary_map hw]

theorem matchAt_map (hl : ∀ c, (f c).toLower = c.toLower)
    (hw : ∀ c, isWordChar (f c) = isWordChar c) (t : List Char) (re : Re) (i : Nat) :
    matchAt (t.map f) re i = matchAt t re i :=
  mtch_map hl hw t re i _

theorem scanAux_map (hl : ∀ c, (f c).toLower = c.toLower)
    (hw : ∀ c, isWordChar (f c) = isWordChar c) (t : List Char) (re : Re) :
    ∀ fuel i, scanAux (t.map f) re fuel i = scanAux t re fuel i := by
  intro fuel
  induction fuel with
  | zero => intro i; rfl
  | succ n ih =>
    intro i
    rw [scanAux, scanAux, matchAt_map hl hw, List.length_map]
    cases matchAt t re i with
    | some e => simp only [ih]
    | none => simp only [ih]

theorem findIter_map (hl : ∀ c, (f c).toLower = c.toLower)
    (hw : ∀ c, isWordChar (f c) = isWordChar c) (t : List Char) (re : Re) :
    findIter (t.map f) re = findIter t re := by
  unfold findIter
  rw [List.length_map, scanAux_map hl hw]

theorem find_hits_length_map (hl : ∀ c, (f c).toLower = c.toLower)
    (hw : ∀ c, isWordChar (f c) = isWordChar c) (t : List Char) :
    ∀ ps : List Re, (find_hits (t.map f) ps).length = (find_hits t ps).length := by
  intro ps
  induction ps with
  | nil => rfl
  | cons p ps ih =>
    simp only [find_hits, List.length_append, List.length_map,
      findIter_map hl hw, ih]

end CaseMap

/-! ### Further helpers for the claim theorems -/

theorem find_hits_eq_nil_of_all {t : List Char} :
    ∀ {ps : List Re}, (∀ p ∈ ps, findIter t p = []) → find_hits t ps = [] := by
  intro ps
  induction ps with
  | nil => intro _; rfl
  | cons p ps ih =>
    intro h
    simp only [find_hits, h p (List.mem_cons_self p ps), List.map_nil, List.nil_append]
    exact ih fun q hq => h q (List.mem_cons_of_mem p hq)

/-- The label-resolution chain shared by all three classifiers, characterized
case by case. -/
theorem label_chain_cases (nl nk : Nat) (L : String)
    (hL : L = if 0 < nl ∧ 0 < nk then "both"
          else if 0 < nl then "lungs"
          else if 0 < nk then "kidneys"
          else "neither") :
    (L = "both" ∨ L = "lungs" ∨ L = "kidneys" ∨ L = "neither") ∧
    (L = "both" ↔ 0 < nl ∧ 0 < nk) ∧
    (L = "lungs" ↔ 0 < nl ∧ nk = 0) ∧
    (L = "kidneys" ↔ nl = 0 ∧ 0 < nk) ∧
    (L = "neither" ↔ nl = 0 ∧ nk = 0) := by
  subst hL
  rcases Nat.eq_zero_or_pos nl with h1 | h1 <;>
    rcases Nat.eq_zero_or_pos nk with h2 | h2 <;>
      simp_all <;> omega

/-- Each kidney pattern of the reference module is `\b<root>...` for one of
the nine kidney roots. -/
def kidneyRoots : List (List Char) := [s2l "kidney", s2l "renal", s2l "nephr",
  s2l "glomerul", s2l "creatinin", s2l "GFR", s2l "dialysis",
  s2l "proteinuria", s2l "albuminuria"]

theorem kidney_patterns_rooted : ∀ p ∈ textclassifier.KIDNEY_PATTERNS,
    ∃ root, root ∈ kidneyRoots ∧ root ≠ [] ∧ ∃ rest, p = bPat root rest := by
  intro p hp
  simp only [textclassifier.KIDNEY_PATTERNS, List.mem_cons, List.not_mem_nil, or_false] at hp
  rcases hp with rfl | rfl | rfl | rfl | rfl | rfl | rfl | rfl | rfl <;>
    exact ⟨_, by decide, by decide, _, rfl⟩

/-- An evidence string is the verbatim text of some matched span of some
pattern of the rule set. -/
def verbatimAt (t : List Char) (pats : List Re) (s : List Char) : Prop :=
  ∃ p ∈ pats, ∃ i e, (i, e) ∈ findIter t p ∧ i < e ∧ e ≤ t.length ∧ s = sliceStr t i e

theorem evidence_verbatim_of_shape {t : List Char} {ps : List Re}
    (hshape : ∀ p ∈ ps, ∃ root rest, p = bPat root rest ∧ root ≠ []) :
    ∀ s ∈ (find_hits t ps).map (fun h => h.1), verbatimAt t ps s := by
  intro s hs
  obtain ⟨ht, hmem, rfl⟩ := List.mem_map.mp hs
  obtain ⟨p, hp, hiter, hslice⟩ := find_hits_mem hmem
  have hb := matchAt_bounds_of_shape (t := t) (hshape p hp)
  obtain ⟨hlt, hle, -⟩ := findIter_mem hb hiter
  exact ⟨p, hp, ht.2.1, ht.2.2, hiter, hlt, hle, hslice⟩

/-! ## The claims -/

/-- **C1.** For every input text, classify returns exactly one of the four
labels "lungs", "kidneys", "both", "neither", determined solely by emptiness
of the collected evidence with fixed precedence: if lung and kidney evidence
are both non-empty the label is "both"; if only lung evidence is non-empty it
is "lungs"; if only kidney evidence is non-empty it is "kidneys"; otherwise
it is "neither".  (Stated for the reference module's
`classify_medical_abstract` with either evidence flag, and for the tkinter
variant's `classify` with its own rule sets.) -/
theorem claim1_label_policy (t : List Char) (b : Bool) :
    (labelOf (textclassifier.classify_medical_abstract t b) = "both" ∨
     labelOf (textclassifier.classify_medical_abstract t b) = "lungs" ∨
     labelOf (textclassifier.classify_medical_abstract t b) = "kidneys" ∨
     labelOf (textclassifier.classify_medical_abstract t b) = "neither") ∧
    (labelOf (textclassifier.classify_medical_abstract t b) = "both" ↔
      find_hits t textclassifier.LUNG_PATTERNS ≠ [] ∧
      find_hits t textclassifier.KIDNEY_PATTERNS ≠ []) ∧
    (labelOf (textclassifier.classify_medical_abstract t b) = "lungs" ↔
      find_hits t textclassifier.LUNG_PATTERNS ≠ [] ∧
      find_hits t textclassifier.KIDNEY_PATTERNS = []) ∧
    (labelOf (textclassifier.classify_medical_abstract t b) = "kidneys" ↔
      find_hits t textclassifier.LUNG_PATTERNS = [] ∧
      find_hits t textclassifier.KIDNEY_PATTERNS ≠ []) ∧
    (labelOf (textclassifier.classify_medical_abstract t b) = "neither" ↔
      find_hits t textclassifier.LUNG_PATTERNS = [] ∧
      find_hits t textclassifier.KIDNEY_PATTERNS = []) ∧
    (tkapp.classify (.pystr t) = "both" ∨ tkapp.classify (.pystr t) = "lungs" ∨
     tkapp.classify (.pystr t) = "kidneys" ∨ tkapp.classify (.pystr t) = "neither") ∧
    (tkapp.classify (.pystr t) = "both" ↔
      find_hits t tkapp.CP_LUNG ≠ [] ∧ find_hits t tkapp.CP_KIDNEY ≠ []) ∧
    (tkapp.classify (.pystr t) = "lungs" ↔
      find_hits t tkapp.CP_LUNG ≠ [] ∧ find_hits t tkapp.CP_KIDNEY = []) ∧
    (tkapp.classify (.pystr t) = "kidneys" ↔
      find_hits t tkapp.CP_LUNG = [] ∧ find_hits t tkapp.CP_KIDNEY ≠ []) ∧
    (tkapp.classify (.pystr t) = "neither" ↔
      find_hits t tkapp.CP_LUNG = [] ∧ find_hits t tkapp.CP_KIDNEY = []) := by
  obtain ⟨m1, m2, m3, m4, m5⟩ := label_chain_cases _ _ _ (labelOf_classify_ref t b)
  obtain ⟨n1, n2, n3, n4, n5⟩ := label_chain_cases _ _ _ (tk_classify_eq t)
  refine ⟨m1, ?_, ?_, ?_, ?_, n1, ?_, ?_, ?_, ?_⟩ <;>
    simp only [m2, m3, m4, m5, n2, n3, n4, n5, List.length_pos, List.length_eq_zero]

/-- **C2.** The label never depends on the ignored rule set or on whether
evidence is requested: the label with `return_evidence=True` equals the label
with `return_evidence=False` (reference module and Streamlit app), and a text
with no lung and no kidney matches is labeled "neither" no matter how many
ignored-category terms it contains. -/
theorem claim2_ignored_never_affects_label (t : List Char) (b : Bool) :
    labelOf (textclassifier.classify_medical_abstract t true) =
      labelOf (textclassifier.classify_medical_abstract t false) ∧
    labelOf (streamlitapp.classify_medical_abstract t true) =
      labelOf (streamlitapp.classify_medical_abstract t false) ∧
    (find_hits t textclassifier.LUNG_PATTERNS = [] →
      find_hits t textclassifier.KIDNEY_PATTERNS = [] →
      labelOf (textclassifier.classify_medical_abstract t b) = "neither") := by
  refine ⟨rfl, rfl, fun hl hk => ?_⟩
  rw [labelOf_classify_ref, hl, hk]
  simp

/-- Witness for C2 on a text consisting only of ignored-category terms. -/
theorem claim2_witness :
    labelOf (textclassifier.classify_medical_abstract
        (s2l "dyspnoea, tachycardia, hypertension and RAAS") true) =
      labelOf (textclassifier.classify_medical_abstract
        (s2l "dyspnoea, tachycardia, hypertension and RAAS") false) ∧
    labelOf (streamlitapp.classify_medical_abstract
        (s2l "dyspnoea, tachycardia, hypertension and RAAS") true) =
      labelOf (streamlitapp.classify_medical_abstract
        (s2l "dyspnoea, tachycardia, hypertension and RAAS") false) ∧
    labelOf (textclassifier.classify_medical_abstract
        (s2l "dyspnoea, tachycardia, hypertension and RAAS") false) = "neither" := by
  have h := claim2_ignored_never_affects_label
    (s2l "dyspnoea, tachycardia, hypertension and RAAS") false
  exact ⟨h.1, h.2.1, h.2.2 (by decide) (by decide)⟩

/-- **C3, counterexample.** The claim says every non-string input is
normalized to the empty string and never raises.  In the reference module
`text = text or ""` only replaces *falsy* values: the truthy non-string `1`
flows into `re.finditer`, which raises `TypeError`. -/
theorem claim3_counterexample :
    textclassifier.classify_medical_abstract_dyn (.pyint 1) false = .error () := rfl

/-- **C3, amended.** Absent (`None`) input is normalized to the empty string
by the reference classifier and labeled "neither"; the tkinter `classify`
normalizes *every* non-string to the empty string and returns "neither";
empty and whitespace-only strings are labeled "neither" by both (the
reference module raising no error on any string); but a truthy non-string
passed to the reference `classify_medical_abstract` raises `TypeError`
(see the counterexample). -/
theorem claim3_amended (b : Bool) (s : List Char)
    (hws : ∀ c ∈ s, c.isWhitespace = true) :
    textclassifier.classify_medical_abstract_dyn .pynone b =
      .ok (textclassifier.classify_medical_abstract [] b) ∧
    labelOf (textclassifier.classify_medical_abstract [] b) = "neither" ∧
    (∀ v : PyVal, (∀ u, v ≠ .pystr u) → tkapp.classify v = "neither") ∧
    labelOf (textclassifier.classify_medical_abstract s b) = "neither" ∧
    tkapp.classify (.pystr s) = "neither" := by
  have hnw : ∀ c ∈ s, isWordChar c = false :=
    fun c hc => isWordChar_of_whitespace (hws c hc)
  have wk : ∀ {ps : List Re},
      (∀ p ∈ ps, ∃ root rest, p = bPat root rest ∧ root ≠ []) →
      (∀ p ∈ ps, ∃ root rest, p = bPat root rest) := by
    intro ps h p hp
    obtain ⟨root, rest, he, -⟩ := h p hp
    exact ⟨root, rest, he⟩
  have hl : find_hits s textclassifier.LUNG_PATTERNS = [] :=
    find_hits_eq_nil_of_noWord hnw (wk shape_ref_lung)
  have hk : find_hits s textclassifier.KIDNEY_PATTERNS = [] :=
    find_hits_eq_nil_of_noWord hnw (wk shape_ref_kidney)
  have htl : find_hits s tkapp.CP_LUNG = [] :=
    find_hits_eq_nil_of_noWord hnw (wk shape_tk_lung)
  have htk : find_hits s tkapp.CP_KIDNEY = [] :=
    find_hits_eq_nil_of_noWord hnw (wk shape_tk_kidney)
  refine ⟨rfl, by cases b <;> decide, ?_, ?_, ?_⟩
  · intro v hv
    cases v with
    | pynone => decide
    | pystr u => exact absurd rfl (hv u)
    | pyint n => rfl
  · rw [labelOf_classify_ref, hl, hk]
    simp
  · rw [tk_classify_eq, htl, htk]
    simp

/-- Witness for C3 (amended) on a whitespace-only string. -/
theorem claim3_amended_witness :
    textclassifier.classify_medical_abstract_dyn .pynone true =
      .ok (textclassifier.classify_medical_abstract [] true) ∧
    labelOf (textclassifier.classify_medical_abstract [] true) = "neither" ∧
    (∀ v : PyVal, (∀ u, v ≠ .pystr u) → tkapp.classify v = "neither") ∧
    labelOf (textclassifier.classify_medical_abstract (s2l "  \t\n ") true) = "neither" ∧
    tkapp.classify (.pystr (s2l "  \t\n ")) = "neither" :=
  claim3_amended true (s2l "  \t\n ") (by decide)

/-- **C4.** Word-boundary precision of the kidney rules: if every
case-insensitive occurrence of a kidney root in the text lies inside a longer
word with no word boundary at its start, kidney evidence is empty (and, when
there are no lung matches either, the label is "neither"); whereas
"nephritis" and "nephrology" do produce kidney evidence. -/
theorem claim4_word_boundary (t : List Char)
    (h : ∀ root ∈ kidneyRoots, ∀ i, i < t.length →
      occursCI root t i = true → atBoundary t i = false) :
    find_hits t textclassifier.KIDNEY_PATTERNS = [] ∧
    (find_hits t textclassifier.LUNG_PATTERNS = [] →
      ∀ b, labelOf (textclassifier.classify_medical_abstract t b) = "neither") ∧
    find_hits (s2l "nephritis") textclassifier.KIDNEY_PATTERNS ≠ [] ∧
    find_hits (s2l "nephrology") textclassifier.KIDNEY_PATTERNS ≠ [] := by
  have hk : find_hits t textclassifier.KIDNEY_PATTERNS = [] := by
    refine find_hits_eq_nil_of_all ?_
    intro p hp
    obtain ⟨root, hroot, hne, rest, rfl⟩ := kidney_patterns_rooted p hp
    exact findIter_eq_nil (matchAt_bPat_none_of_embedded hne (h root hroot))
  refine ⟨hk, ?_, by decide, by decide⟩
  intro hl b
  rw [labelOf_classify_ref, hl, hk]
  simp

/-- Witness for C4: "renal" occurs only inside "adrenaline" and "nephr"
only inside "epinephrine"; kidney evidence is empty and the label "neither". -/
theorem claim4_witness :
    find_hits (s2l "The adrenaline and epinephrine surged.")
      textclassifier.KIDNEY_PATTERNS = [] ∧
    labelOf (textclassifier.classify_medical_abstract
      (s2l "The adrenaline and epinephrine surged.") false) = "neither" := by
  have h := claim4_word_boundary (s2l "The adrenaline and epinephrine surged.") (by decide)
  exact ⟨h.1, h.2.1 (by decide) false⟩

/-- **C5, counterexample.** The tkinter `classify` and the reference
`classify_medical_abstract` disagree on "spirometry": the tkinter vocabulary
contains a spirometry pattern, the reference module's does not. -/
theorem claim5_counterexample :
    tkapp.classify (.pystr (s2l "spirometry")) = "lungs" ∧
    labelOf (textclassifier.classify_medical_abstract (s2l "spirometry") false) = "neither" ∧
    tkapp.classify (.pystr (s2l "spirometry")) ≠
      labelOf (textclassifier.classify_medical_abstract (s2l "spirometry") false) := by
  refine ⟨by decide, by decide, by decide⟩

/-- **C5, amended.** The reference module and the Streamlit app embody
identical matching logic: for every input text and evidence flag their
classifiers return identical results.  The tkinter variant diverges (see the
counterexample) because its vocabulary differs: it adds spirometry and bare
respiratory adjectives and drops proteinuria and the respiratory-tract
phrase. -/
theorem claim5_amended (t : List Char) (b : Bool) :
    streamlitapp.classify_medical_abstract t b =
      textclassifier.classify_medical_abstract t b := by
  cases b <;> rfl

/-- **C6, counterexample.** The lung vocabulary referenced by the claim
(`_LUNG_PATTERNS` of the reference module) contains no spirometry pattern:
on the standalone word "spirometry" lung evidence is empty and the label is
"neither", not "lungs". -/
theorem claim6_counterexample :
    labelOf (textclassifier.classify_medical_abstract (s2l "spirometry") false) = "neither" ∧
    textclassifier.classify_medical_abstract (s2l "spirometry") true =
      .lblEv "neither" ⟨[], [], []⟩ := by
  refine ⟨by decide, by decide⟩

/-- **C6, amended.** Only the tkinter variant's lungs vocabulary includes the
diagnostic modality term spirometry: there, "spirometry" produces non-empty
lung evidence and the label "lungs"; the reference module (and the Streamlit
app, whose patterns are identical) labels it "neither". -/
theorem claim6_amended :
    tkapp.classify (.pystr (s2l "spirometry")) = "lungs" ∧
    find_hits (s2l "spirometry") tkapp.CP_LUNG ≠ [] := by
  refine ⟨by decide, by decide⟩

/-- **C7.** Case-insensitivity: mapping the input entirely to lowercase or
entirely to uppercase does not change the label, for the reference
classifier (either evidence flag) and for the tkinter variant. -/
theorem claim7_case_insensitive (t : List Char) (b : Bool) :
    labelOf (textclassifier.classify_medical_abstract (t.map Char.toLower) b) =
      labelOf (textclassifier.classify_medical_abstract t b) ∧
    labelOf (textclassifier.classify_medical_abstract (t.map Char.toUpper) b) =
      labelOf (textclassifier.classify_medical_abstract t b) ∧
    tkapp.classify (.pystr (t.map Char.toLower)) = tkapp.classify (.pystr t) ∧
    tkapp.classify (.pystr (t.map Char.toUpper)) = tkapp.classify (.pystr t) := by
  have hld := find_hits_length_map toLower_toLower isWordChar_toLower t
  have hud := find_hits_length_map toUpper_toLower isWordChar_toUpper t
  refine ⟨?_, ?_, ?_, ?_⟩ <;>
    simp only [labelOf_classify_ref, tk_classify_eq, hld, hud]

/-- **C8.** On "Patient presented with renal failure and elevated
creatinine." the reference classifier returns label "kidneys"; with evidence
requested, the kidney evidence contains "renal" and "creatinine" and the
lung evidence is empty. -/
theorem claim8_concrete_kidneys :
    ∃ ev : Evidence,
      textclassifier.classify_medical_abstract
          (s2l "Patient presented with renal failure and elevated creatinine.") true =
        .lblEv "kidneys" ev ∧
      s2l "renal" ∈ ev.kidneys ∧ s2l "creatinine" ∈ ev.kidneys ∧ ev.lungs = [] := by
  refine ⟨⟨[], [s2l "renal", s2l "creatinine"], []⟩, by decide, by decide, by decide, rfl⟩

/-- **C9.** When evidence is requested, every string in each returned
evidence list is the original-case matched substring of the input: it is
verbatim `text[i:e]` for a span `(i, e)` at which one of that category's
patterns matched. -/
theorem claim9_evidence_verbatim (t : List Char) (l : String) (ev : Evidence)
    (hc : textclassifier.classify_medical_abstract t true = .lblEv l ev) :
    (∀ s ∈ ev.lungs, verbatimAt t textclassifier.LUNG_PATTERNS s) ∧
    (∀ s ∈ ev.kidneys, verbatimAt t textclassifier.KIDNEY_PATTERNS s) ∧
    (∀ s ∈ ev.ignored, verbatimAt t textclassifier.IGNORE_PATTERNS s) := by
  simp only [textclassifier.classify_medical_abstract, if_pos, CResult.lblEv.injEq] at hc
  obtain ⟨-, hev⟩ := hc
  subst hev
  exact ⟨evidence_verbatim_of_shape shape_ref_lung,
         evidence_verbatim_of_shape shape_ref_kidney,
         evidence_verbatim_of_shape shape_ref_ignore⟩

/-- Witness for C9: the kidney evidence entry "renal" of "renal failure"
is a verbatim matched substring. -/
theorem claim9_witness :
    verbatimAt (s2l "renal failure") textclassifier.KIDNEY_PATTERNS (s2l "renal") :=
  (claim9_evidence_verbatim (s2l "renal failure") "kidneys"
      ⟨[], [s2l "renal"], []⟩ (by decide)).2.1 (s2l "renal") (by decide)

/-- **C10.** Evidence ordering: the hit list is grouped by pattern in the
registry's definition order; within one pattern the spans are in strictly
ascending start order and non-overlapping; duplicate matched substrings are
preserved (two occurrences of "renal" give two evidence entries). -/
theorem claim10_evidence_order (t : List Char) :
    (∀ p ∈ textclassifier.LUNG_PATTERNS ++ textclassifier.KIDNEY_PATTERNS ++
        textclassifier.IGNORE_PATTERNS,
      List.Chain' (fun a b : Nat × Nat => a.2 ≤ b.1 ∧ a.1 < b.1) (findIter t p)) ∧
    (∀ (p : Re) (ps : List Re), find_hits t (p :: ps) =
      (findIter t p).map (fun pr => (sliceStr t pr.1 pr.2, pr)) ++ find_hits t ps) ∧
    evidenceOf (textclassifier.classify_medical_abstract (s2l "renal renal") true) =
      some ⟨[], [s2l "renal", s2l "renal"], []⟩ := by
  refine ⟨?_, fun p ps => rfl, by decide⟩
  intro p hp
  have hsh : ∃ root rest, p = bPat root rest ∧ root ≠ [] := by
    rcases List.mem_append.mp hp with hp2 | hp2
    · rcases List.mem_append.mp hp2 with hp3 | hp3
      · exact shape_ref_lung p hp3
      · exact shape_ref_kidney p hp3
    · exact shape_ref_ignore p hp2
  exact findIter_chain (matchAt_bounds_of_shape hsh)

/-- Witness for C10: the span list of the renal pattern on "renal and renal"
is chained (ascending, non-overlapping). -/
theorem claim10_witness :
    List.Chain' (fun a b : Nat × Nat => a.2 ≤ b.1 ∧ a.1 < b.1)
      (findIter (s2l "renal and renal") (bPat (s2l "renal") .wordB)) :=
  (claim10_evidence_order (s2l "renal and renal")).1 _ (by decide)

